import Mathlib

/-!
Verification of the `conc` framework core: a shallow embedding of the
arena allocator (`source/app/1-memory.h`), the cooperative scheduler
driver (`source/app/2-runtime.h`, `app.h`), and the HTTP layer
(`source/app/4-network.h`, `source/lite/2-network.h`), together with
theorems settling the specification's quantified claims about them.

Machine pointers are modelled abstractly as (page id, byte offset)
pairs; page ids are drawn from a monotone counter so that a freshly
mapped page is distinguishable from every page that existed before.
Byte contents are modelled as `List Nat` and C strings as `List Char`.
-/

/-- Splice `src` into `l` starting at offset `off`, overwriting
`src.length` elements: the model of writing a byte range into a
buffer or a page. -/
def splice {α : Type} (l : List α) (off : Nat) (src : List α) : List α :=
  l.take off ++ src ++ l.drop (off + src.length)

/-- Swap-remove at index `i`: the element at `i` is replaced by the last
element and the length shrinks by one.  This is `memory_slice_remove` /
`list_remove` from the source (`(list)->items[index] = (list)->items[--(list)->count]`). -/
def sliceRemove {α : Type} (l : List α) (i : Nat) : List α :=
  match l.getLast? with
  | none => l
  | some x => (l.set i x).dropLast

theorem sliceRemove_length {α : Type} (l : List α) (i : Nat) (h : l ≠ []) :
    (sliceRemove l i).length = l.length - 1 := by
  unfold sliceRemove
  match hl : l.getLast? with
  | none => exact absurd (List.getLast?_eq_none_iff.mp hl) h
  | some x => simp [List.length_dropLast]

/-! ## Arena memory (`source/app/1-memory.h`)

A `MemoryArena` in the C source is a chain of pages, each page carrying
its own `capacity`, `count`, block-descriptor list and byte buffer; the
struct at the head of the chain is the handle all public functions
receive.  We model the chain as a nonempty `List Page` (head first)
plus the fresh-id counter. -/

/-- An abstract machine pointer: the id of the page it points into and
the byte offset inside that page's buffer. -/
structure MPtr where
  page : Nat
  off : Nat
deriving DecidableEq, Repr

/-- One block descriptor `{ptr, size}` (`struct MemoryBlock`). -/
structure MemBlock where
  ptr : MPtr
  size : Nat
deriving DecidableEq, Repr

/-- One page of the arena chain (`struct MemoryArena` in C: `capacity`,
`count`, `blocks`, `memory[]`).  `id` is the abstract identity of the
mmapped region; fresh pages receive fresh ids. -/
structure Page where
  id : Nat
  capacity : Nat
  count : Nat
  blocks : List MemBlock
  data : List Nat
deriving DecidableEq, Repr

/-- The arena handle: the page chain (head first, never empty in any
reachable state) plus the counter supplying fresh page ids. -/
structure MemoryArena where
  pages : List Page
  nextId : Nat
deriving DecidableEq, Repr

/-- `memory_arena(capacity)`: a fresh single-page arena.  `mmap` with
`MAP_ANONYMOUS` zero-fills, hence `data` is all zeros. -/
def memory_arena (capacity : Nat) : MemoryArena :=
  ⟨[⟨0, capacity, 0, [], List.replicate capacity 0⟩], 1⟩

/-- `memory_block_count(arena)`: walks `arena->blocks`, i.e. the block
list of the head page only (the C function never follows `next`). -/
def memory_block_count (a : MemoryArena) : Nat :=
  match a.pages with
  | [] => 0
  | p :: _ => p.blocks.length

/-- The page walk plus allocation of `memory_alloc`, traced from the C:
`while (count + size > capacity && next != NULL) arena = arena->next;`
then `if (count + size >= capacity)` a new page of capacity
`max(capacity, size) * 2` is written into `arena->next` (note: this
overwrites — and hence drops from the chain — any pages that followed
the stop page), and finally the block is recorded on the page that
serves the allocation.  Returns (pointer, new chain, new id counter). -/
def allocGo (nid size : Nat) : List Page → MPtr × List Page × Nat
  | [] => (⟨0, 0⟩, [], nid)
  | p :: rest =>
    if p.capacity < p.count + size ∧ rest ≠ [] then
      let r := allocGo nid size rest
      (r.1, p :: r.2.1, r.2.2)
    else if p.capacity ≤ p.count + size then
      let cap := 2 * max p.capacity size
      let np : Page := ⟨nid, cap, size, [⟨⟨nid, 0⟩, size⟩], List.replicate cap 0⟩
      (⟨nid, 0⟩, [p, np], nid + 1)
    else
      ((⟨p.id, p.count⟩),
       ({ p with count := p.count + size,
                 blocks := ⟨⟨p.id, p.count⟩, size⟩ :: p.blocks } :: rest),
       nid)

/-- `memory_alloc(arena, size)` for a non-NULL arena.  The `mmap` and
`malloc` of the C code are assumed to succeed (their failure paths
return NULL and are outside the allocation contract being verified). -/
def memory_alloc (a : MemoryArena) (size : Nat) : MPtr × MemoryArena :=
  let r := allocGo a.nextId size a.pages
  (r.1, ⟨r.2.1, r.2.2⟩)

/-- Look up the block descriptor for `ptr` the way `memory_realloc`
does: scan `arena->blocks`, the head page's list, most recent first. -/
def findBlock (a : MemoryArena) (ptr : MPtr) : Option MemBlock :=
  match a.pages with
  | [] => none
  | p :: _ => p.blocks.find? (fun b => b.ptr == ptr)

/-- Read `n` bytes at pointer `p`: the bytes of the first page in the
chain whose id matches, starting at the pointer's offset. -/
def memRead (a : MemoryArena) (p : MPtr) (n : Nat) : List Nat :=
  match a.pages.find? (fun pg => pg.id == p.page) with
  | none => []
  | some pg => (pg.data.drop p.off).take n

/-- Overwrite bytes at pointer `p` with `src` in the first page whose
id matches. -/
def memWriteGo (p : MPtr) (src : List Nat) : List Page → List Page
  | [] => []
  | pg :: rest =>
    if pg.id == p.page then { pg with data := splice pg.data p.off src } :: rest
    else pg :: memWriteGo p src rest

/-- Write `src` at pointer `p` (the byte-copy loop of `memory_realloc`). -/
def memWrite (a : MemoryArena) (p : MPtr) (src : List Nat) : MemoryArena :=
  ⟨memWriteGo p src a.pages, a.nextId⟩

/-- `memory_realloc(arena, ptr, size)` for a non-NULL arena: find the
block for `ptr` in the head page's list; absent → NULL with the arena
untouched; `size` not larger than the recorded size → return `ptr`
unchanged; otherwise allocate afresh and copy the recorded number of
bytes (`memory_alloc` writes no user bytes and unmaps nothing, so the
source bytes read after the allocation equal those read before it). -/
def memory_realloc (a : MemoryArena) (ptr : MPtr) (size : Nat) :
    Option MPtr × MemoryArena :=
  match findBlock a ptr with
  | none => (none, a)
  | some b =>
    if size ≤ b.size then (some ptr, a)
    else
      let src := memRead a ptr b.size
      let r := memory_alloc a size
      (some r.1, memWrite r.2 r.1 src)

/-- `memory_empty(arena)`.  For a single-page arena the C code frees the
block list, zeroes `count` and `memset`s the buffer.  When the chain has
a second page, the C loop `while (arena->next != NULL)
memory_destroy(arena->next);` never clears `arena->next`: the first
iteration munmaps the whole tail, the loop condition still sees the old
(now dangling) pointer, and the second iteration dereferences unmapped
memory — the function never completes normally.  That stuck/faulting
outcome is modelled as `none`. -/
def memory_empty (a : MemoryArena) : Option MemoryArena :=
  match a.pages with
  | [] => none
  | p :: rest =>
    if rest = [] then
      some ⟨[⟨p.id, p.capacity, 0, [], List.replicate p.capacity 0⟩], a.nextId⟩
    else none

/-! ## Cooperative scheduler driver (`source/app/2-runtime.h`, `app.h`)

The process-wide scheduler state consists of the parallel id vectors
`running` (the ready queue, with `current` indexing the running fiber),
`waiting`, `stopped` (the free-id stack) and the `polls` vector kept
index-parallel with `waiting`.  The per-fiber records (stack pointers,
arenas) live in a separate table and are not consulted by the driver
logic modelled here; `runtime_resume` transfers control and changes no
queue state.  The `poll(2)` syscall is modelled as an oracle
`dp : List PollRec → List PollRec` that fills in the `revents` of the
submitted entries. -/

/-- One `struct pollfd`: the registered events plus the
revents-nonzero bit the kernel reports back. -/
structure PollRec where
  fd : Int
  events : Nat
  revents : Bool
deriving DecidableEq, Repr

/-- The scheduler's global queue state. -/
structure SchedState where
  current : Nat
  running : List Nat
  waiting : List Nat
  stopped : List Nat
  polls : List PollRec
deriving DecidableEq, Repr

/-- A recorded invocation of `poll(2)`: how many entries were submitted
and with which timeout. -/
structure PollCall where
  nfds : Nat
  timeout : Int
deriving DecidableEq, Repr

/-- The wake-up loop shared by `runtime_next` and `runtime_stop`: scan
`polls` by index; an entry with nonzero `revents` is swap-removed from
`polls` and `waiting` (the fiber id is appended to `running`) and the
same index is re-examined; otherwise the index advances. -/
def wakeLoop (polls : List PollRec) (waiting running : List Nat) (i : Nat) :
    List PollRec × List Nat × List Nat :=
  if h : i < polls.length then
    if (polls.get ⟨i, h⟩).revents then
      let pid := waiting.getD i 0
      wakeLoop (sliceRemove polls i) (sliceRemove waiting i) (running ++ [pid]) i
    else
      wakeLoop polls waiting running (i + 1)
  else
    (polls, waiting, running)
termination_by polls.length - i
decreasing_by
  · have hne : polls ≠ [] := by
      intro hnil
      rw [hnil] at h
      simp at h
    rw [sliceRemove_length polls i hne]
    omega
  · omega

/-- `runtime_next` (identical in logic to `runtime_continue` in
`app.h`): if `polls` is non-empty, invoke `poll` with timeout `0` when
more than one fiber is in the ready queue and `-1` otherwise, run the
wake-up loop, and finally reduce `current` modulo the ready count before
resuming.  The second component records the `poll` invocation, if any. -/
def runtime_next (dp : List PollRec → List PollRec) (s : SchedState) :
    SchedState × Option PollCall :=
  let step : SchedState × Option PollCall :=
    if s.polls.length > 0 then
      let timeout : Int := if s.running.length > 1 then 0 else -1
      let polled := dp s.polls
      let w := wakeLoop polled s.waiting s.running 0
      ({ s with polls := w.1, waiting := w.2.1, running := w.2.2 },
       some ⟨s.polls.length, timeout⟩)
    else (s, none)
  if step.1.running.length > 0 then
    ({ step.1 with current := step.1.current % step.1.running.length }, step.2)
  else step

/-- `runtime_stop` (`runtime_finish` in `app.h`), the fiber exit path:
the stopping fiber's id is pushed on the free stack and swap-removed
from `running` (its arena reset is part of the memory subsystem and
invisible to the queue state); then the same poll-and-wake sequence as
`runtime_next` runs; then, if nothing is ready but fibers are waiting,
`waiting[0]` is promoted and its poll entry dropped; finally `current`
is reduced modulo the ready count.  `none` models the fatal
`exit(1)` taken when the host fiber (id 0) reaches this path. -/
def runtime_stop (dp : List PollRec → List PollRec) (s : SchedState) :
    Option (SchedState × Option PollCall) :=
  let fiber_id := s.running.getD s.current 0
  if fiber_id = 0 then none
  else
    let s1 : SchedState :=
      { s with stopped := s.stopped ++ [fiber_id],
               running := sliceRemove s.running s.current }
    let step : SchedState × Option PollCall :=
      if s1.polls.length > 0 then
        let timeout : Int := if s1.running.length > 1 then 0 else -1
        let polled := dp s1.polls
        let w := wakeLoop polled s1.waiting s1.running 0
        ({ s1 with polls := w.1, waiting := w.2.1, running := w.2.2 },
         some ⟨s1.polls.length, timeout⟩)
      else (s1, none)
    let s2 : SchedState := step.1
    let s3 : SchedState :=
      if s2.running.length = 0 ∧ s2.waiting.length > 0 then
        { s2 with running := s2.running ++ [s2.waiting.getD 0 0],
                  waiting := sliceRemove s2.waiting 0,
                  polls := sliceRemove s2.polls 0 }
      else s2
    if s3.running.length > 0 then
      some ({ s3 with current := s3.current % s3.running.length }, step.2)
    else some (s3, step.2)

/-! ## HTTP layer and router (`source/lite/2-network.h`, `source/app/4-network.h`)

The writer functions are identical in the two drafts.  Writes over the
connection are modelled as accumulating the byte stream (`network_write`
succeeds and returns its `size` argument); the fd close performed by
`network_write_body` is recorded in a `closed` effect list.  C strings
are `List Char`. -/

/-- ASCII lower-casing of one character (the `tolower` underlying
`strcasecmp` in the C locale). -/
def asciiLower (c : Char) : Char :=
  if 'A' ≤ c ∧ c ≤ 'Z' then Char.ofNat (c.toNat + 32) else c

/-- `strcasecmp(a, b) == 0`: byte-wise equality after ASCII case
folding. -/
def strcaseEq (a b : List Char) : Bool :=
  a.map asciiLower == b.map asciiLower

/-- Shorthand for string literals as character lists. -/
def str (s : String) : List Char := s.data

/-- Decimal rendering of a nonnegative integer (`%d` for the values the
writer produces). -/
def natRepr (n : Nat) : List Char := Nat.toDigits 10 n

/-- Decimal rendering of a C `int` (`%d`). -/
def intRepr : Int → List Char
  | Int.ofNat n => natRepr n
  | Int.negSucc n => '-' :: natRepr (n + 1)

/-- The identity of an endpoint's handler function pointer: either the
built-in `network_not_found` or an application callback. -/
inductive NetworkCallback
  | notFound
  | user (id : Nat)
deriving DecidableEq, Repr

/-- `struct NetworkEndpoint`. -/
structure NetworkEndpoint where
  method : List Char
  path : List Char
  callback : NetworkCallback
deriving DecidableEq, Repr

/-- `struct NetworkRequest`.  Headers are (key, value) lists with the
most recently inserted pair first, as in the C linked lists. -/
structure NetworkRequest where
  conn_fd : Int
  protocol : List Char
  method : List Char
  path : List Char
  req_headers : List (List Char × List Char)
  res_headers : List (List Char × List Char)
  req_length : Int
  res_status : Int
deriving DecidableEq, Repr

/-- The static `network_not_found_endpoint`. -/
def network_not_found_endpoint : NetworkEndpoint :=
  ⟨[], [], NetworkCallback.notFound⟩

/-- `_network_lookup_endpoint`: scan the router's endpoints in
registration order; the first whose method and path both compare equal
under `strcasecmp` wins; otherwise the built-in 404 endpoint. -/
def network_lookup_endpoint (router : List NetworkEndpoint)
    (req : NetworkRequest) : NetworkEndpoint :=
  match router with
  | [] => network_not_found_endpoint
  | e :: rest =>
    if strcaseEq e.method req.method && strcaseEq e.path req.path then e
    else network_lookup_endpoint rest req

/-- The walk of `network_set_header`: replace the value of the first
header whose key case-insensitively equals `key`; report whether a
match was found. -/
def setHeaderGo (key value : List Char) :
    List (List Char × List Char) → List (List Char × List Char) × Bool
  | [] => ([], false)
  | (k, v) :: rest =>
    if strcaseEq k key then ((k, value) :: rest, true)
    else
      let r := setHeaderGo key value rest
      ((k, v) :: r.1, r.2)

/-- `network_set_header(req, header, value)`: upsert by
case-insensitive key; a missing key is prepended at the head of the
response-header list. -/
def network_set_header (req : NetworkRequest) (key value : List Char) :
    NetworkRequest :=
  let r := setHeaderGo key value req.res_headers
  if r.2 then { req with res_headers := r.1 }
  else { req with res_headers := (key, value) :: req.res_headers }

/-- Case-insensitive lookup in a header list (the scan of
`network_get_header`, applied here to response headers). -/
def findHeader (hs : List (List Char × List Char)) (key : List Char) :
    Option (List Char) :=
  (hs.find? (fun kv => strcaseEq kv.1 key)).map Prod.snd

/-- Result of a writer call: the C return value, the request record
after the call, the bytes sent over the connection, and the fds
closed. -/
structure WriteResult where
  result : Int
  req : NetworkRequest
  wire : List Char
  closed : List Int
deriving DecidableEq, Repr

/-- `"\r\n"`. -/
def crlf : List Char := ['\r', '\n']

/-- Serialization of the response headers, one `"key: value\r\n"` line
per entry in list order. -/
def renderHeaders : List (List Char × List Char) → List Char
  | [] => []
  | (k, v) :: rest => k ++ str ": " ++ v ++ crlf ++ renderHeaders rest

/-- `network_write_head(req, status, message)`: `-1` if `res_status` is
already nonzero; otherwise record the status and emit the status line,
every response header, and the terminating blank line. -/
def network_write_head (req : NetworkRequest) (status : Int)
    (message : List Char) : WriteResult :=
  if req.res_status ≠ 0 then ⟨-1, req, [], []⟩
  else
    let out := str "HTTP/1.0 " ++ intRepr status ++ [' '] ++ message ++ crlf
               ++ renderHeaders req.res_headers ++ crlf
    ⟨Int.ofNat out.length, { req with res_status := status }, out, []⟩

/-- `network_write_body(req, body, len)`: when no head has been written
(`res_status == 0`), upsert `Content-Length: len` and emit
`write_head(200, "OK")` first; then send `len` bytes of the body, close
the connection fd and mark it `-1` in the request record. -/
def network_write_body (req : NetworkRequest) (body : List Char)
    (len : Nat) : WriteResult :=
  if req.res_status = 0 then
    let req1 := network_set_header req (str "Content-Length") (natRepr len)
    let h := network_write_head req1 200 (str "OK")
    if h.result < 0 then ⟨-1, h.req, h.wire, []⟩
    else
      ⟨h.result + Int.ofNat len, { h.req with conn_fd := -1 },
       h.wire ++ body.take len, [h.req.conn_fd]⟩
  else
    ⟨Int.ofNat len, { req with conn_fd := -1 }, body.take len, [req.conn_fd]⟩

/-- `network_not_found`, the callback of the built-in 404 endpoint:
set `Content-Type: text/plain`, write head `404 Not Found`, write body
`"not found"` (9 bytes). -/
def network_not_found (req : NetworkRequest) : WriteResult :=
  let req1 := network_set_header req (str "Content-Type") (str "text/plain")
  let h := network_write_head req1 404 (str "Not Found")
  let b := network_write_body h.req (str "not found") 9
  ⟨b.result, b.req, h.wire ++ b.wire, h.closed ++ b.closed⟩

/-! ## `network_read_until` (`source/lite/2-network.h`, `source/app/4-network.h`)

The fd is modelled as a script of `read(2)` outcomes: a byte chunk
(`chunk []` being the 0-byte end-of-stream return), `EAGAIN`, or a
permanent error.  A `chunk bs` event delivers at most the number of
bytes the call requested (`size - 1 - total`); the `EAGAIN` case
suspends the fiber via `runtime_read` and retries, which consumes the
event and leaves the buffer untouched. -/

/-- One outcome of a `read(2)` call on the connection. -/
inductive ReadRes
  | chunk (bs : List Nat)
  | wouldBlock
  | fatal
deriving DecidableEq, Repr

/-- The C string contained in a byte buffer: everything up to the first
NUL (what `strstr` scans). -/
def cstr (buf : List Nat) : List Nat := buf.takeWhile (fun b => b ≠ 0)

/-- `needle` matches at the head of `hay`. -/
def leadMatch : List Nat → List Nat → Bool
  | [], _ => true
  | _ :: _, [] => false
  | a :: as, b :: bs => a == b && leadMatch as bs

/-- `strstr(hay, needle) != NULL`: `needle` occurs contiguously
somewhere in `hay`. -/
def hasSub (needle : List Nat) : List Nat → Bool
  | [] => leadMatch needle []
  | b :: bs => leadMatch needle (b :: bs) || hasSub needle bs

/-- `network_read_until(fd, buf, size, delim)` with the fd abstracted
into the event script.  Mirrors the C loop: while fewer than `size - 1`
bytes are accumulated, read; `EAGAIN` retries after suspension; a
permanent error returns `-1` immediately (leaving the buffer exactly as
it was); a 0-byte read breaks; after a successful read the buffer is
null-terminated at the new length and scanned for the delimiter, which
breaks the loop when present and at least `strlen(delim)` bytes have
arrived.  On every break the terminator is (re)written and the
accumulated length returned.  `none` means the script ended before the
function returned (the connection stayed silent). -/
def network_read_until (cap : Nat) (delim : List Nat) :
    List ReadRes → Nat → List Nat → Option (Int × List Nat)
  | events, total, buf =>
    if total < cap - 1 then
      match events with
      | [] => none
      | ReadRes.wouldBlock :: rest => network_read_until cap delim rest total buf
      | ReadRes.fatal :: _ => some (-1, buf)
      | ReadRes.chunk [] :: _ => some (Int.ofNat total, buf.set total 0)
      | ReadRes.chunk (b :: bs) :: rest =>
        let delivered := (b :: bs).take (cap - 1 - total)
        let total' := total + delivered.length
        let buf2 := (splice buf total delivered).set total' 0
        if delim.length ≤ total' ∧ hasSub delim (cstr buf2) then
          some (Int.ofNat total', buf2)
        else network_read_until cap delim rest total' buf2
    else some (Int.ofNat total, buf.set total 0)

/-! ## Helper lemmas -/

theorem splice_length {α : Type} (l : List α) (off : Nat) (src : List α)
    (h : off + src.length ≤ l.length) : (splice l off src).length = l.length := by
  simp [splice]
  omega

theorem getD_set_self {α : Type} (l : List α) (i : Nat) (a d : α)
    (h : i < l.length) : (l.set i a).getD i d = a := by
  rw [List.getD_eq_getElem?_getD, List.getElem?_set_self]
  · simp
  · simpa using h

theorem splice_read {α : Type} (l : List α) (off : Nat) (src : List α)
    (h : off + src.length ≤ l.length) :
    ((splice l off src).drop off).take src.length = src := by
  have h1 : (l.take off).length = off := by
    simp [List.length_take]
    omega
  have h2 : splice l off src = l.take off ++ (src ++ l.drop (off + src.length)) := by
    simp [splice]
  rw [h2]
  nth_rewrite 1 [← h1]
  rw [List.drop_left, List.take_left]

theorem strcaseEq_refl (a : List Char) : strcaseEq a a = true := by
  simp [strcaseEq]

/-! ## Claim C10: realloc of an unrecorded pointer -/

/-- C10: for every non-NIL arena and every pointer that is not recorded
in any block-descriptor list of the arena, `memory_realloc` returns NIL
and leaves the arena completely unchanged. -/
theorem realloc_unknown_ptr_rejected (a : MemoryArena) (ptr : MPtr) (size : Nat)
    (h : ∀ pg ∈ a.pages, ∀ b ∈ pg.blocks, b.ptr ≠ ptr) :
    memory_realloc a ptr size = (none, a) := by
  have hfb : findBlock a ptr = none := by
    unfold findBlock
    match hp : a.pages with
    | [] => rfl
    | p :: rest =>
      apply List.find?_eq_none.mpr
      intro b hb
      simp only [beq_iff_eq]
      exact h p (hp ▸ List.mem_cons_self p rest) b hb
  unfold memory_realloc
  rw [hfb]

/-- Witness for C10 at a concrete arena (one allocation recorded) and a
pointer never allocated from it. -/
theorem realloc_unknown_ptr_rejected_witness :
    (∀ pg ∈ (memory_alloc (memory_arena 10) 3).2.pages,
        ∀ b ∈ pg.blocks, b.ptr ≠ (⟨7, 7⟩ : MPtr)) ∧
    memory_realloc (memory_alloc (memory_arena 10) 3).2 ⟨7, 7⟩ 4 =
      (none, (memory_alloc (memory_arena 10) 3).2) :=
  ⟨by decide, realloc_unknown_ptr_rejected _ _ 4 (by decide)⟩

/-! ## Claim C4: write_head at most once -/

/-- C4 counterexample: the claim quantifies over all statuses, but a
first call `write_head(req, 0, m)` returns successfully while leaving
`res_status` at `0`, so the second call does not return `-1`. -/
theorem write_head_zero_status_cex :
    (network_write_head (network_write_head ⟨7, [], [], [], [], [], 0, 0⟩ 0
        (str "X")).req 200 (str "OK")).result ≠ -1 := by decide

/-- C4 amended: for every first status `s1 ≠ 0`, once
`write_head(req, s1, m1)` has returned, every further
`write_head(_, s2, m2)` on the resulting request returns `-1`, leaves
the request record unchanged and writes nothing. -/
theorem write_head_second_call_returns_neg_one (req : NetworkRequest)
    (s1 s2 : Int) (m1 m2 : List Char) (h : s1 ≠ 0) :
    (network_write_head (network_write_head req s1 m1).req s2 m2).result = -1 ∧
    (network_write_head (network_write_head req s1 m1).req s2 m2).req =
      (network_write_head req s1 m1).req ∧
    (network_write_head (network_write_head req s1 m1).req s2 m2).wire = [] := by
  by_cases h0 : req.res_status = 0
  · simp [network_write_head, h0, h]
  · simp [network_write_head, h0]

/-- Witness for C4's amended theorem at a concrete request. -/
theorem write_head_second_call_returns_neg_one_witness :
    (500 : Int) ≠ 0 ∧
    (network_write_head (network_write_head ⟨7, [], [], [], [], [], 0, 0⟩ 500
        (str "A")).req 200 (str "B")).result = -1 :=
  ⟨by decide,
   (write_head_second_call_returns_neg_one ⟨7, [], [], [], [], [], 0, 0⟩ 500 200
     (str "A") (str "B") (by decide)).1⟩

/-! ## Claim C5: arena reset -/

/-- C5: evaluating the code at the failing input.  Allocating 15 bytes
into a fresh 10-byte arena leaves a two-page chain; on that chain
`memory_empty` never reaches its reset epilogue (the page-destruction
loop re-enters `memory_destroy` on the already-unmapped second page),
so no subsequent `alloc` can be issued at all, contradicting the
claimed reset behaviour. -/
theorem memory_empty_multi_page_stuck :
    (memory_alloc (memory_arena 10) 15).2.pages.length = 2 ∧
    memory_empty (memory_alloc (memory_arena 10) 15).2 = none := by decide

/-! ## Claim C2 counterexample -/

/-- C2 counterexample: the router compares paths with `strcasecmp`, not
byte-exactly.  With only `GET /a` registered, a request for `/A` (no
byte-exact match exists) selects the registered endpoint instead of the
built-in 404 endpoint. -/
theorem dispatch_path_case_insensitive_cex :
    network_lookup_endpoint [⟨str "GET", str "/a", NetworkCallback.user 0⟩]
        ⟨7, [], str "GET", str "/A", [], [], 0, 0⟩ =
      ⟨str "GET", str "/a", NetworkCallback.user 0⟩ ∧
    str "/a" ≠ str "/A" ∧
    (⟨str "GET", str "/a", NetworkCallback.user 0⟩ : NetworkEndpoint) ≠
      network_not_found_endpoint := by decide

/-! ## Claim C6 counterexample -/

/-- C6 counterexample: after `alloc(3)` on a fresh 10-byte arena the
returned pointer is the most recent allocation and 5 more bytes fit in
the head page, yet `memory_realloc` to size 5 returns a different
pointer (offset 3) — the code never grows in place. -/
theorem realloc_most_recent_not_in_place_cex :
    (memory_alloc (memory_arena 10) 3).1 = (⟨0, 0⟩ : MPtr) ∧
    (memory_realloc (memory_alloc (memory_arena 10) 3).2 ⟨0, 0⟩ 5).1 =
      some (⟨0, 3⟩ : MPtr) ∧
    (⟨0, 3⟩ : MPtr) ≠ (⟨0, 0⟩ : MPtr) := by decide

/-! ## Claim C7 counterexample -/

/-- C7 counterexample: allocating 15 bytes into a fresh arena of
capacity 10 (no room) appends a page of capacity `max(10, 15) * 2 = 30`,
which is at least 15 but is not an integer multiple of two times the
prior capacity (20 does not divide 30). -/
theorem page_growth_not_multiple_of_double_cex :
    (memory_alloc (memory_arena 10) 15).2.pages.map Page.capacity = [10, 30] ∧
    ¬ ∃ m : Nat, 30 = m * (2 * 10) := by
  constructor
  · decide
  · rintro ⟨m, hm⟩
    omega

/-! ## Claim C9 counterexample -/

/-- C9 counterexample: when the very first `read` fails permanently,
`network_read_until` returns `-1` with the caller's buffer exactly as it
was — in particular containing no NUL terminator. -/
theorem read_until_error_no_terminator_cex :
    network_read_until 5 [13, 10] [ReadRes.fatal] 0 [65, 65, 65, 65, 65] =
      some (-1, [65, 65, 65, 65, 65]) ∧
    ¬ (0 : Nat) ∈ [65, 65, 65, 65, 65] := by decide

/-! ## Claim C1: poll timeout in the scheduler driver -/

/-- The poll invocation `runtime_next` makes when `polls` is non-empty:
`poll(polls.items, polls.count, running.count > 1 ? 0 : -1)`. -/
theorem runtime_next_pollcall (dp : List PollRec → List PollRec) (s : SchedState)
    (h : 0 < s.polls.length) :
    (runtime_next dp s).2 =
      some ⟨s.polls.length, if 1 < s.running.length then 0 else -1⟩ := by
  simp [runtime_next, h, apply_ite Prod.snd]

/-- The poll invocation `runtime_stop` makes when `polls` is non-empty
and the exiting fiber is not the host: the same timeout rule evaluated
after the exiting fiber has been removed from the ready queue. -/
theorem runtime_stop_pollcall (dp : List PollRec → List PollRec) (s : SchedState)
    (h : 0 < s.polls.length) (hf : s.running.getD s.current 0 ≠ 0) :
    ∃ s', runtime_stop dp s = some (s',
      some ⟨s.polls.length, if 1 < s.running.length - 1 then 0 else -1⟩) := by
  have hne : s.running ≠ [] := by
    intro hnil
    rw [hnil] at hf
    simp [List.getD] at hf
  have hlen : (sliceRemove s.running s.current).length = s.running.length - 1 :=
    sliceRemove_length _ _ hne
  unfold runtime_stop
  rw [if_neg hf]
  simp only [h, gt_iff_lt, if_pos, hlen]
  split <;> split <;> exact ⟨_, rfl⟩

/-- C1 counterexample: with exactly one fiber in the ready queue and a
non-empty polls vector, the driver invokes `poll` with timeout `-1`
(block) although the ready queue is not empty — the claim demands
timeout `0` whenever at least one fiber is ready. -/
theorem poll_blocks_with_one_ready_cex :
    (runtime_next id ⟨0, [0], [1], [], [⟨4, 1, false⟩]⟩).2 =
      some ⟨1, -1⟩ ∧
    (⟨0, [0], [1], [], [⟨4, 1, false⟩]⟩ : SchedState).running ≠ [] ∧
    (⟨0, [0], [1], [], [⟨4, 1, false⟩]⟩ : SchedState).polls ≠ [] := by
  refine ⟨?_, by decide, by decide⟩
  simp [runtime_next, apply_ite Prod.snd]

/-- C1 amended: whenever the driver invokes `poll` with a non-empty
polls vector it uses timeout `-1` iff at most one fiber is in the ready
queue at the moment of the call, and timeout `0` iff at least two are
(in `runtime_stop` the exiting fiber has already left the queue). -/
theorem poll_timeout_blocks_iff_at_most_one_ready
    (dp : List PollRec → List PollRec) (s : SchedState) (h : s.polls ≠ []) :
    (∃ c : PollCall, (runtime_next dp s).2 = some c ∧ c.nfds = s.polls.length ∧
      (c.timeout = -1 ↔ s.running.length ≤ 1) ∧
      (c.timeout = 0 ↔ 2 ≤ s.running.length)) ∧
    (s.running.getD s.current 0 ≠ 0 →
      ∃ s' c, runtime_stop dp s = some (s', some c) ∧ c.nfds = s.polls.length ∧
        (c.timeout = -1 ↔ s.running.length ≤ 2) ∧
        (c.timeout = 0 ↔ 3 ≤ s.running.length)) := by
  have hl : 0 < s.polls.length := List.length_pos.mpr h
  constructor
  · refine ⟨_, runtime_next_pollcall dp s hl, rfl, ?_, ?_⟩ <;>
      by_cases hr : 1 < s.running.length <;> simp [hr] <;> omega
  · intro hf
    obtain ⟨s', hs⟩ := runtime_stop_pollcall dp s hl hf
    have hne : s.running ≠ [] := by
      intro hnil
      rw [hnil] at hf
      simp [List.getD] at hf
    have h1 : 1 ≤ s.running.length := List.length_pos.mpr hne
    refine ⟨s', _, hs, rfl, ?_, ?_⟩ <;>
      by_cases hr : 1 < s.running.length - 1 <;> simp [hr] <;> omega

/-- Witness for C1's amended theorem at a concrete state with two ready
fibers, one waiting fiber and one poll entry. -/
theorem poll_timeout_witness :
    ((⟨0, [1, 2], [3], [], [⟨4, 1, false⟩]⟩ : SchedState).polls ≠ []) ∧
    (∃ c : PollCall,
      (runtime_next id ⟨0, [1, 2], [3], [], [⟨4, 1, false⟩]⟩).2 = some c ∧
      c.nfds = (⟨0, [1, 2], [3], [], [⟨4, 1, false⟩]⟩ : SchedState).polls.length ∧
      (c.timeout = -1 ↔
        (⟨0, [1, 2], [3], [], [⟨4, 1, false⟩]⟩ : SchedState).running.length ≤ 1) ∧
      (c.timeout = 0 ↔
        2 ≤ (⟨0, [1, 2], [3], [], [⟨4, 1, false⟩]⟩ : SchedState).running.length)) :=
  ⟨by decide,
   (poll_timeout_blocks_iff_at_most_one_ready id
     ⟨0, [1, 2], [3], [], [⟨4, 1, false⟩]⟩ (by decide)).1⟩

/-! ## Claim C2: dispatch -/

/-- C2 amended: dispatch selects the first registered endpoint whose
method and path both match the request case-insensitively (`strcasecmp`
is used for the path as well, so path matching is not byte-exact); when
none matches, the built-in 404 endpoint is selected, and its callback
answers `HTTP/1.0 404 Not Found` with `Content-Type: text/plain` and
body `"not found"`, closing the connection. -/
theorem dispatch_first_match_and_default_404 :
    (∀ (router : List NetworkEndpoint) (req : NetworkRequest),
      network_lookup_endpoint router req =
        (router.find? (fun e =>
          strcaseEq e.method req.method && strcaseEq e.path req.path)).getD
          network_not_found_endpoint) ∧
    (∀ (f rl : Int) (prot m p : List Char) (rh : List (List Char × List Char)),
      (network_not_found ⟨f, prot, m, p, rh, [], rl, 0⟩).wire =
        str "HTTP/1.0 404 Not Found\r\nContent-Type: text/plain\r\n\r\nnot found" ∧
      (network_not_found ⟨f, prot, m, p, rh, [], rl, 0⟩).req.res_status = 404 ∧
      (network_not_found ⟨f, prot, m, p, rh, [], rl, 0⟩).closed = [f]) := by
  constructor
  · intro router req
    induction router with
    | nil => simp [network_lookup_endpoint]
    | cons e rest ih =>
      by_cases hm : strcaseEq e.method req.method && strcaseEq e.path req.path
      · simp [network_lookup_endpoint, List.find?, hm]
      · simp [network_lookup_endpoint, List.find?, hm, ih]
  · intro f rl prot m p rh
    refine ⟨?_, ?_, ?_⟩ <;>
      simp [network_not_found, network_set_header, setHeaderGo,
            network_write_head, network_write_body, findHeader, str, crlf,
            renderHeaders, intRepr, natRepr, Nat.toDigits, Nat.toDigitsCore,
            Nat.digitChar]

/-! ## Claim C3: write_body on a request without a written head -/

theorem findHeader_upsert (hs : List (List Char × List Char)) (k v : List Char) :
    findHeader (if (setHeaderGo k v hs).2 then (setHeaderGo k v hs).1
                else (k, v) :: hs) k = some v := by
  induction hs with
  | nil => simp [setHeaderGo, findHeader, List.find?, strcaseEq_refl]
  | cons kv rest ih =>
    obtain ⟨k', v'⟩ := kv
    by_cases hk : strcaseEq k' k
    · simp [setHeaderGo, hk, findHeader, List.find?]
    · by_cases hr : (setHeaderGo k v rest).2
      · simp [setHeaderGo, hk, hr, findHeader, List.find?] at ih ⊢
        exact ih
      · simp [setHeaderGo, hk, hr, findHeader, List.find?, strcaseEq_refl]

theorem findHeader_network_set_header (req : NetworkRequest) (k v : List Char) :
    findHeader (network_set_header req k v).res_headers k = some v := by
  have h := findHeader_upsert req.res_headers k v
  unfold network_set_header
  by_cases hr2 : (setHeaderGo k v req.res_headers).2 <;>
    simp [hr2] at h ⊢ <;> exact h

theorem write_head_on_fresh (req : NetworkRequest) (s : Int) (msg : List Char)
    (h : req.res_status = 0) :
    (network_write_head req s msg).req = { req with res_status := s } ∧
    ¬ (network_write_head req s msg).result < 0 := by
  simp [network_write_head, h]
  positivity

theorem write_body_unfold (req : NetworkRequest) (body : List Char) (n : Nat)
    (h0 : req.res_status = 0) :
    network_write_body req body n =
      ⟨(network_write_head (network_set_header req (str "Content-Length")
          (natRepr n)) 200 (str "OK")).result + Int.ofNat n,
       { (network_write_head (network_set_header req (str "Content-Length")
           (natRepr n)) 200 (str "OK")).req with conn_fd := -1 },
       (network_write_head (network_set_header req (str "Content-Length")
          (natRepr n)) 200 (str "OK")).wire ++ body.take n,
       [(network_write_head (network_set_header req (str "Content-Length")
          (natRepr n)) 200 (str "OK")).req.conn_fd]⟩ := by
  have hs1 : (network_set_header req (str "Content-Length") (natRepr n)).res_status = 0 := by
    unfold network_set_header
    by_cases hr2 : (setHeaderGo (str "Content-Length") (natRepr n) req.res_headers).2 <;>
      simp [hr2, h0]
  have hnn := (write_head_on_fresh _ 200 (str "OK") hs1).2
  unfold network_write_body
  rw [if_pos h0, if_neg hnn]

/-- C3: on a request whose head has not been written (`res_status = 0`),
`write_body(req, body, n)` upserts `Content-Length: n`, emits exactly
the head that `write_head(req', 200, "OK")` emits on the upserted
request, then the `n` body bytes; it closes the connection fd and marks
`conn_fd = -1` in the request record. -/
theorem write_body_emits_head_then_body_and_closes
    (req : NetworkRequest) (body : List Char) (n : Nat)
    (h0 : req.res_status = 0) (hn : n ≤ body.length) :
    (network_write_body req body n).wire =
      (network_write_head (network_set_header req (str "Content-Length")
        (natRepr n)) 200 (str "OK")).wire ++ body.take n ∧
    (body.take n).length = n ∧
    (network_write_body req body n).req =
      { (network_write_head (network_set_header req (str "Content-Length")
          (natRepr n)) 200 (str "OK")).req with conn_fd := -1 } ∧
    (network_write_body req body n).closed = [req.conn_fd] ∧
    (network_write_body req body n).result =
      (network_write_head (network_set_header req (str "Content-Length")
        (natRepr n)) 200 (str "OK")).result + Int.ofNat n ∧
    (network_write_body req body n).req.res_status = 200 ∧
    findHeader (network_write_body req body n).req.res_headers
      (str "Content-Length") = some (natRepr n) := by
  have hu := write_body_unfold req body n h0
  have hs1 : (network_set_header req (str "Content-Length") (natRepr n)).res_status = 0 := by
    unfold network_set_header
    by_cases hr2 : (setHeaderGo (str "Content-Length") (natRepr n) req.res_headers).2 <;>
      simp [hr2, h0]
  have hw := (write_head_on_fresh _ 200 (str "OK") hs1).1
  have hfd : (network_set_header req (str "Content-Length") (natRepr n)).conn_fd
      = req.conn_fd := by
    unfold network_set_header
    by_cases hr2 : (setHeaderGo (str "Content-Length") (natRepr n) req.res_headers).2 <;>
      simp [hr2]
  have hfh := findHeader_network_set_header req (str "Content-Length") (natRepr n)
  rw [hu]
  refine ⟨rfl, ?_, rfl, ?_, rfl, ?_, ?_⟩
  · simp [List.length_take]
    omega
  · rw [hw]
    simp [hfd]
  · rw [hw]
  · rw [hw]
    simpa using hfh

/-- Witness for C3 at a concrete fresh request with a 5-byte body. -/
theorem write_body_emits_head_then_body_and_closes_witness :
    ((⟨7, [], [], [], [], [], 0, 0⟩ : NetworkRequest).res_status = 0 ∧
      5 ≤ (str "Hello").length) ∧
    (network_write_body ⟨7, [], [], [], [], [], 0, 0⟩ (str "Hello") 5).closed =
      [(⟨7, [], [], [], [], [], 0, 0⟩ : NetworkRequest).conn_fd] ∧
    (network_write_body ⟨7, [], [], [], [], [], 0, 0⟩ (str "Hello") 5).req.res_status
      = 200 :=
  ⟨⟨by decide, by decide⟩,
   (write_body_emits_head_then_body_and_closes ⟨7, [], [], [], [], [], 0, 0⟩
      (str "Hello") 5 (by decide) (by decide)).2.2.2.1,
   (write_body_emits_head_then_body_and_closes ⟨7, [], [], [], [], [], 0, 0⟩
      (str "Hello") 5 (by decide) (by decide)).2.2.2.2.2.1⟩

theorem ru_exit_case (cap total : Nat) (buf : List Nat) (r : Int) (buf' : List Nat)
    (hb : cap ≤ buf.length) (ht : total < cap)
    (h : some (Int.ofNat total, buf.set total 0) = some (r, buf')) :
    buf'.length = buf.length ∧
    (0 ≤ r → r.toNat < cap ∧ buf'.getD r.toNat 1 = 0) ∧
    (r < 0 → False) := by
  simp only [Option.some.injEq, Prod.mk.injEq] at h
  obtain ⟨hr, hbuf⟩ := h
  subst hr
  subst hbuf
  refine ⟨List.length_set .., ?_, ?_⟩
  · intro _
    exact ⟨ht, getD_set_self buf total 0 1 (by omega)⟩
  · intro hneg
    exact absurd hneg (Int.not_lt.mpr (Int.ofNat_nonneg total))

theorem ru_inv (cap : Nat) (delim : List Nat) (events : List ReadRes) :
    ∀ (total : Nat) (buf : List Nat) (r : Int) (buf' : List Nat),
      cap ≤ buf.length → total < cap →
      network_read_until cap delim events total buf = some (r, buf') →
      buf'.length = buf.length ∧
      (0 ≤ r → r.toNat < cap ∧ buf'.getD r.toNat 1 = 0) ∧
      (r < 0 → r = -1 ∧ ReadRes.fatal ∈ events) := by
  induction events with
  | nil =>
    intro total buf r buf' hb ht h
    rw [network_read_until.eq_def] at h
    by_cases htc : total < cap - 1
    · simp [htc] at h
    · simp only [htc, if_false] at h
      obtain ⟨h1, h2, h3⟩ := ru_exit_case cap total buf r buf' hb ht h
      exact ⟨h1, h2, fun hneg => absurd hneg (fun x => h3 x)⟩
  | cons e rest ih =>
    intro total buf r buf' hb ht h
    rw [network_read_until.eq_def] at h
    by_cases htc : total < cap - 1
    · simp only [htc, if_true] at h
      match e with
      | ReadRes.wouldBlock =>
        obtain ⟨h1, h2, h3⟩ := ih total buf r buf' hb ht h
        exact ⟨h1, h2, fun hneg => ⟨(h3 hneg).1, List.mem_cons_of_mem _ (h3 hneg).2⟩⟩
      | ReadRes.fatal =>
        simp only [Option.some.injEq, Prod.mk.injEq] at h
        obtain ⟨hr, hbuf⟩ := h
        subst hr
        subst hbuf
        refine ⟨rfl, ?_, ?_⟩
        · intro hpos
          omega
        · intro _
          exact ⟨rfl, List.mem_cons_self ..⟩
      | ReadRes.chunk [] =>
        obtain ⟨h1, h2, h3⟩ := ru_exit_case cap total buf r buf' hb ht h
        exact ⟨h1, h2, fun hneg => absurd hneg (fun x => h3 x)⟩
      | ReadRes.chunk (b :: bs) =>
        simp only at h
        set delivered := (b :: bs).take (cap - 1 - total) with hdel
        have hdlen : delivered.length ≤ cap - 1 - total := by
          simp [hdel, List.length_take]
        have htot' : total + delivered.length < cap := by omega
        have hsp : (splice buf total delivered).length = buf.length :=
          splice_length buf total delivered (by omega)
        by_cases hhit : delim.length ≤ total + delivered.length ∧
            hasSub delim (cstr ((splice buf total delivered).set
              (total + delivered.length) 0)) = true
        · rw [if_pos hhit] at h
          simp only [Option.some.injEq, Prod.mk.injEq] at h
          obtain ⟨hr, hbuf⟩ := h
          subst hr
          subst hbuf
          refine ⟨by simp [hsp], ?_, ?_⟩
          · intro _
            exact ⟨htot', getD_set_self _ _ 0 1 (by omega)⟩
          · intro hneg
            exact absurd hneg (Int.not_lt.mpr (Int.ofNat_nonneg _))
        · rw [if_neg hhit] at h
          have hb2 : cap ≤ ((splice buf total delivered).set
              (total + delivered.length) 0).length := by
            rw [List.length_set, hsp]
            exact hb
          obtain ⟨h1, h2, h3⟩ := ih _ _ r buf' hb2 htot' h
          refine ⟨?_, h2, ?_⟩
          · rw [h1]
            simp [hsp]
          · intro hneg
            exact ⟨(h3 hneg).1, List.mem_cons_of_mem _ (h3 hneg).2⟩
    · simp only [htc, if_false] at h
      obtain ⟨h1, h2, h3⟩ := ru_exit_case cap total buf r buf' hb ht h
      exact ⟨h1, h2, fun hneg => absurd hneg (fun x => h3 x)⟩

/-- C9 amended: `read_until` (i) null-terminates the buffer at the
returned length on every *non-negative* return and never returns more
than `size - 1` bytes; (ii) returns `-1` only when a permanent read
error occurred (on that path the buffer is not touched, which is the
amendment — the claim's unconditional "null-terminated on every
return" fails there); (iii) a 0-byte read stops the loop immediately,
returning the accumulated length (0 when first); (iv) as soon as the
delimiter occurs in the accumulated C string, the call returns without
consuming any further read event. -/
theorem read_until_contract :
    (∀ (cap : Nat) (delim : List Nat) (events : List ReadRes) (buf : List Nat)
        (r : Int) (buf' : List Nat), 1 ≤ cap → cap ≤ buf.length →
        network_read_until cap delim events 0 buf = some (r, buf') →
        (0 ≤ r → r.toNat ≤ cap - 1 ∧ buf'.getD r.toNat 1 = 0) ∧
        (r < 0 → r = -1 ∧ ReadRes.fatal ∈ events)) ∧
    (∀ (cap : Nat) (delim : List Nat) (rest : List ReadRes) (buf : List Nat),
        0 < cap - 1 →
        network_read_until cap delim (ReadRes.chunk [] :: rest) 0 buf =
          some (0, buf.set 0 0)) ∧
    (∀ (cap : Nat) (delim : List Nat) (b : Nat) (bs : List Nat)
        (rest : List ReadRes) (total : Nat) (buf : List Nat),
        total < cap - 1 →
        delim.length ≤ total + ((b :: bs).take (cap - 1 - total)).length →
        hasSub delim (cstr ((splice buf total ((b :: bs).take (cap - 1 - total))).set
          (total + ((b :: bs).take (cap - 1 - total)).length) 0)) = true →
        network_read_until cap delim (ReadRes.chunk (b :: bs) :: rest) total buf =
          some (Int.ofNat (total + ((b :: bs).take (cap - 1 - total)).length),
            (splice buf total ((b :: bs).take (cap - 1 - total))).set
              (total + ((b :: bs).take (cap - 1 - total)).length) 0)) := by
  refine ⟨?_, ?_, ?_⟩
  · intro cap delim events buf r buf' hcap hb h
    obtain ⟨h1, h2, h3⟩ := ru_inv cap delim events 0 buf r buf' hb (by omega) h
    exact ⟨fun hpos => ⟨by have := (h2 hpos).1; omega, (h2 hpos).2⟩, h3⟩
  · intro cap delim rest buf h
    rw [network_read_until.eq_def]
    simp only [h, if_true]
    rfl
  · intro cap delim b bs rest total buf ht h1 h2
    rw [network_read_until.eq_def]
    simp only [ht, if_true]
    rw [if_pos ⟨h1, h2⟩]

/-- Witness for C9's amended theorem: a read that delivers the
delimiter, and a 0-byte read on a silent connection. -/
theorem read_until_contract_witness :
    (1 ≤ 5 ∧ 5 ≤ ([9, 9, 9, 9, 9] : List Nat).length ∧
      network_read_until 5 [13, 10] [ReadRes.chunk [65, 13, 10]] 0 [9, 9, 9, 9, 9] =
        some (3, [65, 13, 10, 0, 9])) ∧
    ((0 ≤ (3 : Int) → (3 : Int).toNat ≤ 5 - 1 ∧
        ([65, 13, 10, 0, 9] : List Nat).getD (3 : Int).toNat 1 = 0) ∧
      ((3 : Int) < 0 → (3 : Int) = -1 ∧
        ReadRes.fatal ∈ [ReadRes.chunk [65, 13, 10]])) ∧
    network_read_until 5 [13, 10] [ReadRes.chunk []] 0 [9, 9, 9, 9, 9] =
      some (0, ([9, 9, 9, 9, 9] : List Nat).set 0 0) :=
  ⟨⟨by decide, by decide, by decide⟩,
   read_until_contract.1 5 [13, 10] [ReadRes.chunk [65, 13, 10]] [9, 9, 9, 9, 9]
     3 [65, 13, 10, 0, 9] (by decide) (by decide) (by decide),
   read_until_contract.2.1 5 [13, 10] [] [9, 9, 9, 9, 9] (by decide)⟩

/-! ## Claim C7: page growth when no page has room -/

theorem allocGo_no_room (nid size : Nat) :
    ∀ (ps : List Page) (hne : ps ≠ [])
      (hroom : ∀ p ∈ ps, p.capacity < p.count + size),
    allocGo nid size ps =
      (⟨nid, 0⟩,
       ps ++ [⟨nid, 2 * max (ps.getLast hne).capacity size, size,
         [⟨⟨nid, 0⟩, size⟩],
         List.replicate (2 * max (ps.getLast hne).capacity size) 0⟩],
       nid + 1)
  | [], hne, _ => absurd rfl hne
  | [p], _, hroom => by
      have hp := hroom p (by simp)
      rw [allocGo]
      rw [if_neg (by simp), if_pos (le_of_lt hp)]
      simp
  | p :: q :: rest, _, hroom => by
      have hp := hroom p (by simp)
      have ih := allocGo_no_room nid size (q :: rest) (by simp)
        (fun x hx => hroom x (List.mem_cons_of_mem _ hx))
      rw [allocGo]
      rw [if_pos ⟨hp, by simp⟩]
      rw [ih]
      simp [List.getLast_cons]

/-- C7 amended: when no page of the chain has room, exactly one new
page is appended at the end of the chain; its capacity is
`max(lastPage.capacity, size) * 2`, computed from the capacity of the
page the walk stopped at (the last page, which coincides with the head
only for single-page arenas) — and it is at least `size`.  For a fresh
arena of capacity `c < k` the new capacity is `2k ≥ k`; it need not be
a multiple of `2c`. -/
theorem alloc_no_room_appends_one_page :
    (∀ (a : MemoryArena) (size : Nat) (hne : a.pages ≠ []),
      (∀ p ∈ a.pages, p.capacity < p.count + size) →
      (memory_alloc a size).2.pages =
        a.pages ++ [⟨a.nextId, 2 * max (a.pages.getLast hne).capacity size, size,
          [⟨⟨a.nextId, 0⟩, size⟩],
          List.replicate (2 * max (a.pages.getLast hne).capacity size) 0⟩] ∧
      (memory_alloc a size).1 = ⟨a.nextId, 0⟩ ∧
      size ≤ 2 * max (a.pages.getLast hne).capacity size ∧
      (memory_alloc a size).2.nextId = a.nextId + 1) ∧
    (∀ c k : Nat, c < k →
      (memory_alloc (memory_arena c) k).2.pages.map Page.capacity = [c, 2 * k] ∧
      k ≤ 2 * k) := by
  constructor
  · intro a size hne hroom
    unfold memory_alloc
    rw [allocGo_no_room a.nextId size a.pages hne hroom]
    refine ⟨rfl, rfl, ?_, rfl⟩
    have hm := Nat.le_max_right (a.pages.getLast hne).capacity size
    omega
  · intro c k hck
    constructor
    · unfold memory_alloc memory_arena
      rw [allocGo_no_room 1 k [⟨0, c, 0, [], List.replicate c 0⟩] (by simp)
        (by intro p hp; simp at hp; subst hp; simpa using hck)]
      simp [List.getLast, Nat.max_eq_right (le_of_lt hck)]
    · omega

/-- Witness for C7's amended theorem at a fresh arena of capacity 2 and
an allocation of 5 bytes (no page has room). -/
theorem alloc_no_room_appends_one_page_witness :
    ((memory_arena 2).pages ≠ [] ∧
      (∀ p ∈ (memory_arena 2).pages, p.capacity < p.count + 5) ∧ 2 < 5) ∧
    (memory_alloc (memory_arena 2) 5).1 = (⟨1, 0⟩ : MPtr) ∧
    (memory_alloc (memory_arena 2) 5).2.pages.map Page.capacity = [2, 2 * 5] :=
  ⟨⟨by decide, by decide, by decide⟩,
   ((alloc_no_room_appends_one_page.1 (memory_arena 2) 5 (by decide)
      (by decide)).2).1,
   (alloc_no_room_appends_one_page.2 2 5 (by decide)).1⟩

/-! ## Allocation effect specification (shared by claims C6 and C8) -/

theorem allocGo_spec (size nid : Nat) :
    ∀ (p : Page) (rest : List Page),
      List.Pairwise (fun x y => x.id ≠ y.id) (p :: rest) →
      (∀ q ∈ p :: rest, q.id < nid) →
      (∀ q ∈ p :: rest, q.data.length = q.capacity) →
      ∃ hd' tl',
        (allocGo nid size (p :: rest)).2.1 = hd' :: tl' ∧
        hd'.id = p.id ∧
        ((allocGo nid size (p :: rest)).1.page = p.id →
          hd'.blocks.length = p.blocks.length + 1) ∧
        ((allocGo nid size (p :: rest)).1.page ≠ p.id → hd'.blocks = p.blocks) ∧
        List.Pairwise (fun x y => x.id ≠ y.id) (hd' :: tl') ∧
        (∀ q ∈ hd' :: tl', q.id < (allocGo nid size (p :: rest)).2.2) ∧
        (∀ q ∈ hd' :: tl', q.data.length = q.capacity) ∧
        nid ≤ (allocGo nid size (p :: rest)).2.2 ∧
        (∀ q ∈ hd' :: tl', q.id ∈ (p :: rest).map Page.id ∨ q.id = nid) ∧
        ((allocGo nid size (p :: rest)).1.page ∈ (p :: rest).map Page.id ∨
          (allocGo nid size (p :: rest)).1.page = nid) ∧
        ∃ pg, (hd' :: tl').find?
            (fun q => q.id == (allocGo nid size (p :: rest)).1.page) = some pg ∧
          pg.data.length = pg.capacity ∧
          (allocGo nid size (p :: rest)).1.off + size ≤ pg.capacity := by
  intro p rest
  induction rest generalizing p with
  | nil =>
    intro hpw hlt hdl
    have hpid : p.id < nid := hlt p (by simp)
    have hpdl : p.data.length = p.capacity := hdl p (by simp)
    by_cases hcap : p.capacity ≤ p.count + size
    · have hmax := Nat.le_max_right p.capacity size
      have hpg : (allocGo nid size [p]).1.page = nid := by
        rw [allocGo, if_neg (by simp), if_pos hcap]
      have hoff : (allocGo nid size [p]).1.off = 0 := by
        rw [allocGo, if_neg (by simp), if_pos hcap]
      have hpages : (allocGo nid size [p]).2.1 =
          [p, ⟨nid, 2 * max p.capacity size, size, [⟨⟨nid, 0⟩, size⟩],
            List.replicate (2 * max p.capacity size) 0⟩] := by
        rw [allocGo, if_neg (by simp), if_pos hcap]
      have hnid : (allocGo nid size [p]).2.2 = nid + 1 := by
        rw [allocGo, if_neg (by simp), if_pos hcap]
      rw [hpages, hpg, hoff, hnid]
      refine ⟨p, [_], rfl, rfl, fun h => absurd h (by omega), fun _ => rfl,
        ?_, ?_, ?_, by omega, ?_, by simp, ?_⟩
      · refine List.pairwise_cons.mpr ⟨?_, by simp⟩
        intro x hx
        rw [List.mem_singleton] at hx
        subst x
        show p.id ≠ nid
        omega
      · intro x hx
        rcases List.mem_cons.mp hx with hx | hx
        · subst x
          exact Nat.lt_succ_of_lt hpid
        · rw [List.mem_singleton] at hx
          subst x
          exact Nat.lt_succ_self nid
      · intro x hx
        rcases List.mem_cons.mp hx with hx | hx
        · subst x
          exact hpdl
        · rw [List.mem_singleton] at hx
          subst x
          simp
      · intro x hx
        rcases List.mem_cons.mp hx with hx | hx
        · subst x
          exact Or.inl (List.mem_map.mpr ⟨p, by simp, rfl⟩)
        · rw [List.mem_singleton] at hx
          subst x
          exact Or.inr rfl
      · refine ⟨⟨nid, 2 * max p.capacity size, size, [⟨⟨nid, 0⟩, size⟩],
            List.replicate (2 * max p.capacity size) 0⟩, ?_, by simp, ?_⟩
        · rw [List.find?_cons_of_neg _ (by simp; omega),
              List.find?_cons_of_pos _ (by simp)]
        · show 0 + size ≤ 2 * max p.capacity size
          omega
    · have hpg : (allocGo nid size [p]).1.page = p.id := by
        rw [allocGo, if_neg (by simp), if_neg hcap]
      have hoff : (allocGo nid size [p]).1.off = p.count := by
        rw [allocGo, if_neg (by simp), if_neg hcap]
      have hpages : (allocGo nid size [p]).2.1 =
          [{ p with count := p.count + size,
                    blocks := ⟨⟨p.id, p.count⟩, size⟩ :: p.blocks }] := by
        rw [allocGo, if_neg (by simp), if_neg hcap]
      have hnid : (allocGo nid size [p]).2.2 = nid := by
        rw [allocGo, if_neg (by simp), if_neg hcap]
      rw [hpages, hpg, hoff, hnid]
      refine ⟨_, [], rfl, rfl, fun _ => by simp, fun h => absurd rfl h,
        by simp, ?_, ?_, le_refl nid, ?_, by simp, ?_⟩
      · intro x hx
        rw [List.mem_singleton] at hx
        subst x
        show p.id < nid
        exact hpid
      · intro x hx
        rw [List.mem_singleton] at hx
        subst x
        show p.data.length = p.capacity
        exact hpdl
      · intro x hx
        rw [List.mem_singleton] at hx
        subst x
        exact Or.inl (List.mem_map.mpr ⟨p, by simp, rfl⟩)
      · refine ⟨_, List.find?_cons_of_pos _ (by simp), ?_, ?_⟩
        · show p.data.length = p.capacity
          exact hpdl
        · show p.count + size ≤ p.capacity
          omega
  | cons q rest₂ ih =>
    intro hpw hlt hdl
    have hpid : p.id < nid := hlt p (by simp)
    have hpdl : p.data.length = p.capacity := hdl p (by simp)
    have hphead : ∀ x ∈ q :: rest₂, p.id ≠ x.id := (List.pairwise_cons.mp hpw).1
    by_cases hwalk : p.capacity < p.count + size
    · have hptr : (allocGo nid size (p :: q :: rest₂)).1 =
          (allocGo nid size (q :: rest₂)).1 := by
        rw [allocGo, if_pos ⟨hwalk, by simp⟩]
      have hpages : (allocGo nid size (p :: q :: rest₂)).2.1 =
          p :: (allocGo nid size (q :: rest₂)).2.1 := by
        rw [allocGo, if_pos ⟨hwalk, by simp⟩]
      have hnid : (allocGo nid size (p :: q :: rest₂)).2.2 =
          (allocGo nid size (q :: rest₂)).2.2 := by
        rw [allocGo, if_pos ⟨hwalk, by simp⟩]
      obtain ⟨hd', tl', hres, hid, _, _, hpw', hlt', hdl', hle', hsub', hptr', hreg'⟩ :=
        ih q (List.pairwise_cons.mp hpw).2 (fun x hx => hlt x (List.mem_cons_of_mem _ hx))
          (fun x hx => hdl x (List.mem_cons_of_mem _ hx))
      have hptrne : (allocGo nid size (q :: rest₂)).1.page ≠ p.id := by
        rcases hptr' with hmem | heq
        · obtain ⟨x, hx, hxid⟩ := List.mem_map.mp hmem
          intro hcontra
          exact hphead x hx (by omega)
        · intro hcontra
          omega
      rw [hptr, hpages, hnid, hres]
      refine ⟨p, hd' :: tl', rfl, rfl, fun h => absurd h hptrne, fun _ => rfl,
        ?_, ?_, ?_, hle', ?_, ?_, ?_⟩
      · refine List.pairwise_cons.mpr ⟨?_, hpw'⟩
        intro x hx
        rcases hsub' x hx with hmem | heq
        · obtain ⟨y, hy, hyid⟩ := List.mem_map.mp hmem
          exact fun hcontra => hphead y hy (by omega)
        · omega
      · intro x hx
        rcases List.mem_cons.mp hx with hx1 | hx1
        · subst x
          omega
        · exact hlt' x hx1
      · intro x hx
        rcases List.mem_cons.mp hx with hx1 | hx1
        · subst x
          exact hpdl
        · exact hdl' x hx1
      · intro x hx
        rcases List.mem_cons.mp hx with hx1 | hx1
        · subst x
          exact Or.inl (List.mem_map.mpr ⟨p, by simp, rfl⟩)
        · rcases hsub' x hx1 with hm | he
          · obtain ⟨y, hy, hyid⟩ := List.mem_map.mp hm
            exact Or.inl (List.mem_map.mpr ⟨y, List.mem_cons_of_mem _ hy, hyid⟩)
          · exact Or.inr he
      · rcases hptr' with hm | he
        · obtain ⟨y, hy, hyid⟩ := List.mem_map.mp hm
          exact Or.inl (List.mem_map.mpr ⟨y, List.mem_cons_of_mem _ hy, hyid⟩)
        · exact Or.inr he
      · obtain ⟨pg, hpg, hpgd, hpgc⟩ := hreg'
        refine ⟨pg, ?_, hpgd, hpgc⟩
        rw [List.find?_cons_of_neg _ (by simp; omega), hpg]
    · by_cases hcap : p.capacity ≤ p.count + size
      · have hmax := Nat.le_max_right p.capacity size
        have hpg : (allocGo nid size (p :: q :: rest₂)).1.page = nid := by
          rw [allocGo, if_neg (fun hc => hwalk hc.1), if_pos hcap]
        have hoff : (allocGo nid size (p :: q :: rest₂)).1.off = 0 := by
          rw [allocGo, if_neg (fun hc => hwalk hc.1), if_pos hcap]
        have hpages : (allocGo nid size (p :: q :: rest₂)).2.1 =
            [p, ⟨nid, 2 * max p.capacity size, size, [⟨⟨nid, 0⟩, size⟩],
              List.replicate (2 * max p.capacity size) 0⟩] := by
          rw [allocGo, if_neg (fun hc => hwalk hc.1), if_pos hcap]
        have hnid : (allocGo nid size (p :: q :: rest₂)).2.2 = nid + 1 := by
          rw [allocGo, if_neg (fun hc => hwalk hc.1), if_pos hcap]
        rw [hpages, hpg, hoff, hnid]
        refine ⟨p, [_], rfl, rfl, fun h => absurd h (by omega), fun _ => rfl,
          ?_, ?_, ?_, by omega, ?_, by simp, ?_⟩
        · refine List.pairwise_cons.mpr ⟨?_, by simp⟩
          intro x hx
          rw [List.mem_singleton] at hx
          subst x
          show p.id ≠ nid
          omega
        · intro x hx
          rcases List.mem_cons.mp hx with hx | hx
          · subst x
            exact Nat.lt_succ_of_lt hpid
          · rw [List.mem_singleton] at hx
            subst x
            exact Nat.lt_succ_self nid
        · intro x hx
          rcases List.mem_cons.mp hx with hx | hx
          · subst x
            exact hpdl
          · rw [List.mem_singleton] at hx
            subst x
            simp
        · intro x hx
          rcases List.mem_cons.mp hx with hx | hx
          · subst x
            exact Or.inl (List.mem_map.mpr ⟨p, by simp, rfl⟩)
          · rw [List.mem_singleton] at hx
            subst x
            exact Or.inr rfl
        · refine ⟨⟨nid, 2 * max p.capacity size, size, [⟨⟨nid, 0⟩, size⟩],
              List.replicate (2 * max p.capacity size) 0⟩, ?_, by simp, ?_⟩
          · rw [List.find?_cons_of_neg _ (by simp; omega),
                List.find?_cons_of_pos _ (by simp)]
          · show 0 + size ≤ 2 * max p.capacity size
            omega
      · have hpg : (allocGo nid size (p :: q :: rest₂)).1.page = p.id := by
          rw [allocGo, if_neg (fun hc => hwalk hc.1), if_neg hcap]
        have hoff : (allocGo nid size (p :: q :: rest₂)).1.off = p.count := by
          rw [allocGo, if_neg (fun hc => hwalk hc.1), if_neg hcap]
        have hpages : (allocGo nid size (p :: q :: rest₂)).2.1 =
            { p with count := p.count + size,
                     blocks := ⟨⟨p.id, p.count⟩, size⟩ :: p.blocks } :: q :: rest₂ := by
          rw [allocGo, if_neg (fun hc => hwalk hc.1), if_neg hcap]
        have hnid : (allocGo nid size (p :: q :: rest₂)).2.2 = nid := by
          rw [allocGo, if_neg (fun hc => hwalk hc.1), if_neg hcap]
        rw [hpages, hpg, hoff, hnid]
        refine ⟨_, q :: rest₂, rfl, rfl, fun _ => by simp, fun h => absurd rfl h,
          ?_, ?_, ?_, le_refl nid, ?_, by simp, ?_⟩
        · refine List.pairwise_cons.mpr ⟨?_, (List.pairwise_cons.mp hpw).2⟩
          intro x hx
          exact hphead x hx
        · intro x hx
          rcases List.mem_cons.mp hx with hx1 | hx1
          · subst x
            show p.id < nid
            exact hpid
          · exact hlt x (List.mem_cons_of_mem _ hx1)
        · intro x hx
          rcases List.mem_cons.mp hx with hx1 | hx1
          · subst x
            show p.data.length = p.capacity
            exact hpdl
          · exact hdl x (List.mem_cons_of_mem _ hx1)
        · intro x hx
          rcases List.mem_cons.mp hx with hx1 | hx1
          · subst x
            exact Or.inl (List.mem_map.mpr ⟨p, by simp, rfl⟩)
          · exact Or.inl (List.mem_map.mpr ⟨x, List.mem_cons_of_mem _ hx1, rfl⟩)
        · refine ⟨_, List.find?_cons_of_pos _ (by simp), ?_, ?_⟩
          · show p.data.length = p.capacity
            exact hpdl
          · show p.count + size ≤ p.capacity
            omega

/-- The id of the head page — the page a `MemoryArena*` handle points
to in the C code. -/
def headId (a : MemoryArena) : Nat :=
  match a.pages with
  | [] => 0
  | p :: _ => p.id

/-- Well-formedness of the model arena: a nonempty chain, pairwise
distinct page ids, every id below the fresh-id counter, and every
page's buffer as long as its capacity.  Every arena reachable from
`memory_arena` satisfies it. -/
def WF (a : MemoryArena) : Prop :=
  a.pages ≠ [] ∧ List.Pairwise (fun x y => x.id ≠ y.id) a.pages ∧
  ∀ q ∈ a.pages, q.id < a.nextId ∧ q.data.length = q.capacity

/-- The effect of one `memory_alloc` on a well-formed arena: the arena
stays well formed, the head page's block list grows by one exactly when
the head page served the allocation (the pointer's page id equals the
head id), and the serving page of the returned pointer has room for the
full allocation. -/
theorem memory_alloc_spec (a : MemoryArena) (size : Nat) (h : WF a) :
    WF (memory_alloc a size).2 ∧
    memory_block_count (memory_alloc a size).2 =
      memory_block_count a +
        (if (memory_alloc a size).1.page = headId a then 1 else 0) ∧
    ∃ pg, (memory_alloc a size).2.pages.find?
        (fun q => q.id == (memory_alloc a size).1.page) = some pg ∧
      pg.data.length = pg.capacity ∧
      (memory_alloc a size).1.off + size ≤ pg.capacity := by
  obtain ⟨hne, hpw, hq⟩ := h
  match hp : a.pages with
  | [] => exact absurd hp hne
  | p :: rest =>
    obtain ⟨hd', tl', hres, hid, hplus, hsame, hpw', hlt', hdl', hle', hsub', hptr', hreg'⟩ :=
      allocGo_spec size a.nextId p rest (hp ▸ hpw)
        (fun x hx => (hq x (hp ▸ hx)).1) (fun x hx => (hq x (hp ▸ hx)).2)
    have hpages : (memory_alloc a size).2.pages = hd' :: tl' := by
      unfold memory_alloc
      simpa [hp] using hres
    have hnid : (memory_alloc a size).2.nextId = (allocGo a.nextId size (p :: rest)).2.2 := by
      unfold memory_alloc
      simp [hp]
    have hptr : (memory_alloc a size).1 = (allocGo a.nextId size (p :: rest)).1 := by
      unfold memory_alloc
      simp [hp]
    have hhead : headId a = p.id := by
      unfold headId
      rw [hp]
    refine ⟨⟨?_, ?_, ?_⟩, ?_, ?_⟩
    · rw [hpages]
      simp
    · rw [hpages]
      exact hpw'
    · rw [hpages, hnid]
      intro x hx
      exact ⟨hlt' x hx, hdl' x hx⟩
    · have hbc1 : memory_block_count (memory_alloc a size).2 = hd'.blocks.length := by
        unfold memory_block_count
        rw [hpages]
      have hbc2 : memory_block_count a = p.blocks.length := by
        unfold memory_block_count
        rw [hp]
      rw [hbc1, hbc2, hptr, hhead]
      by_cases hserved : (allocGo a.nextId size (p :: rest)).1.page = p.id
      · rw [if_pos hserved]
        exact hplus hserved
      · rw [if_neg hserved, hsame hserved]
        omega
    · rw [hpages, hptr]
      exact hreg'

/-! ## Write-back effects (shared by claims C6 and C8) -/

theorem memWriteGo_ids (p : MPtr) (src : List Nat) :
    ∀ ps : List Page, (memWriteGo p src ps).map Page.id = ps.map Page.id := by
  intro ps
  induction ps with
  | nil => rfl
  | cons pg rest ih =>
    unfold memWriteGo
    by_cases hq : pg.id == p.page
    · rw [if_pos hq]
      simp
    · rw [if_neg hq]
      simp [ih]

theorem memWrite_block_count (a : MemoryArena) (p : MPtr) (src : List Nat) :
    memory_block_count (memWrite a p src) = memory_block_count a := by
  unfold memory_block_count memWrite
  match a.pages with
  | [] => rfl
  | pg :: rest =>
    unfold memWriteGo
    by_cases hq : pg.id == p.page
    · rw [if_pos hq]
    · rw [if_neg hq]

theorem memWriteGo_find (p : MPtr) (src : List Nat) :
    ∀ (ps : List Page) (pg : Page), ps.find? (fun q => q.id == p.page) = some pg →
      (memWriteGo p src ps).find? (fun q => q.id == p.page) =
        some { pg with data := splice pg.data p.off src } := by
  intro ps
  induction ps with
  | nil => intro pg h; simp [List.find?] at h
  | cons q rest ih =>
    intro pg h
    by_cases hq : q.id == p.page
    · rw [@List.find?_cons_of_pos Page (fun q => q.id == p.page) q rest hq] at h
      injection h with h
      subst pg
      unfold memWriteGo
      rw [if_pos hq]
      exact List.find?_cons_of_pos _ hq
    · rw [@List.find?_cons_of_neg Page (fun q => q.id == p.page) q rest hq] at h
      unfold memWriteGo
      rw [if_neg hq,
          @List.find?_cons_of_neg Page (fun q => q.id == p.page) q
            (memWriteGo p src rest) hq]
      exact ih pg h

theorem memWriteGo_datalen (p : MPtr) (src : List Nat) :
    ∀ (ps : List Page) (pg : Page), ps.find? (fun q => q.id == p.page) = some pg →
      p.off + src.length ≤ pg.data.length →
      (∀ q ∈ ps, q.data.length = q.capacity) →
      ∀ q ∈ memWriteGo p src ps, q.data.length = q.capacity := by
  intro ps
  induction ps with
  | nil => intro pg h; simp [List.find?] at h
  | cons q rest ih =>
    intro pg h hr hall
    by_cases hq : q.id == p.page
    · rw [@List.find?_cons_of_pos Page (fun q => q.id == p.page) q rest hq] at h
      injection h with h
      subst pg
      unfold memWriteGo
      rw [if_pos hq]
      intro x hx
      rcases List.mem_cons.mp hx with hx | hx
      · subst x
        show (splice q.data p.off src).length = q.capacity
        rw [splice_length q.data p.off src hr]
        exact hall q (by simp)
      · exact hall x (List.mem_cons_of_mem _ hx)
    · rw [@List.find?_cons_of_neg Page (fun q => q.id == p.page) q rest hq] at h
      unfold memWriteGo
      rw [if_neg hq]
      intro x hx
      rcases List.mem_cons.mp hx with hx | hx
      · subst x
        exact hall q (by simp)
      · exact ih pg h hr (fun y hy => hall y (List.mem_cons_of_mem _ hy)) x hx

theorem memRead_memWrite (a : MemoryArena) (p : MPtr) (src : List Nat) (pg : Page)
    (hf : a.pages.find? (fun q => q.id == p.page) = some pg)
    (hr : p.off + src.length ≤ pg.data.length) :
    memRead (memWrite a p src) p src.length = src := by
  unfold memRead memWrite
  rw [memWriteGo_find p src a.pages pg hf]
  exact splice_read pg.data p.off src hr

theorem memWrite_WF (a : MemoryArena) (p : MPtr) (src : List Nat) (pg : Page)
    (h : WF a) (hf : a.pages.find? (fun q => q.id == p.page) = some pg)
    (hr : p.off + src.length ≤ pg.data.length) :
    WF (memWrite a p src) := by
  obtain ⟨hne, hpw, hq⟩ := h
  have hids := memWriteGo_ids p src a.pages
  refine ⟨?_, ?_, ?_⟩
  · show memWriteGo p src a.pages ≠ []
    intro hnil
    have : a.pages.map Page.id = [] := by
      rw [← hids, hnil]
      rfl
    simp at this
    exact hne this
  · show List.Pairwise (fun x y => x.id ≠ y.id) (memWriteGo p src a.pages)
    have h1 : List.Pairwise (fun x y : Nat => x ≠ y) (a.pages.map Page.id) :=
      List.pairwise_map.mpr hpw
    have h2 : List.Pairwise (fun x y : Nat => x ≠ y)
        ((memWriteGo p src a.pages).map Page.id) := by rw [hids]; exact h1
    exact List.pairwise_map.mp h2
  · intro x hx
    constructor
    · show x.id < (memWrite a p src).nextId
      have hxid : x.id ∈ (memWriteGo p src a.pages).map Page.id :=
        List.mem_map.mpr ⟨x, hx, rfl⟩
      rw [hids] at hxid
      obtain ⟨y, hy, hyid⟩ := List.mem_map.mp hxid
      have := (hq y hy).1
      show x.id < a.nextId
      omega
    · exact memWriteGo_datalen p src a.pages pg hf hr
        (fun y hy => (hq y hy).2) x hx

theorem memRead_length_le (a : MemoryArena) (p : MPtr) (n : Nat) :
    (memRead a p n).length ≤ n := by
  cases hgo : a.pages.find? (fun pg => pg.id == p.page) with
  | none => simp [memRead, hgo]
  | some pg => simp [memRead, hgo, List.length_take]

/-- The effect of one `memory_realloc` on a well-formed arena: well-
formedness is preserved and the head page's block count grows by one
exactly when the call grows (size above the recorded size) and the
fresh allocation is served by the head page. -/
theorem memory_realloc_spec (a : MemoryArena) (ptr : MPtr) (size : Nat)
    (h : WF a) :
    WF (memory_realloc a ptr size).2 ∧
    memory_block_count (memory_realloc a ptr size).2 =
      memory_block_count a +
        (match findBlock a ptr with
         | none => 0
         | some b =>
           if size ≤ b.size then 0
           else if (memory_alloc a size).1.page = headId a then 1 else 0) := by
  cases hfb : findBlock a ptr with
  | none =>
    have hun : memory_realloc a ptr size = (none, a) := by
      unfold memory_realloc
      rw [hfb]
    rw [hun]
    exact ⟨h, by simp⟩
  | some b =>
    by_cases hsz : size ≤ b.size
    · have hun : memory_realloc a ptr size = (some ptr, a) := by
        unfold memory_realloc
        rw [hfb]
        simp [hsz]
      rw [hun]
      exact ⟨h, by simp [hsz]⟩
    · have hun : memory_realloc a ptr size =
          (some (memory_alloc a size).1,
           memWrite (memory_alloc a size).2 (memory_alloc a size).1
             (memRead a ptr b.size)) := by
        unfold memory_realloc
        rw [hfb]
        simp [hsz]
      obtain ⟨hwf', hbc', pg, hfind, hpgd, hpgc⟩ := memory_alloc_spec a size h
      have hsrc : (memRead a ptr b.size).length ≤ b.size :=
        memRead_length_le a ptr b.size
      have hrange : (memory_alloc a size).1.off + (memRead a ptr b.size).length ≤
          pg.data.length := by
        rw [hpgd]
        omega
      rw [hun]
      refine ⟨?_, ?_⟩
      · exact memWrite_WF (memory_alloc a size).2 (memory_alloc a size).1
          (memRead a ptr b.size) pg hwf' hfind hrange
      · show memory_block_count (memWrite (memory_alloc a size).2
            (memory_alloc a size).1 (memRead a ptr b.size)) = _
        rw [memWrite_block_count, hbc']
        simp [hsz]

/-! ## Claim C6 (amended theorem) -/

/-- C6 amended: `memory_realloc` returns the old pointer unchanged
whenever the requested size is no larger than the recorded block size
(whether or not the block is the most recent allocation); whenever the
requested size is strictly larger it never grows in place: it returns
the allocator's next fresh pointer, and the bytes readable at the new
pointer up to the old recorded size equal the bytes previously stored
at the old pointer. -/
theorem realloc_in_place_iff_not_growing :
    (∀ (a : MemoryArena) (ptr : MPtr) (size : Nat) (b : MemBlock),
      findBlock a ptr = some b → size ≤ b.size →
      memory_realloc a ptr size = (some ptr, a)) ∧
    (∀ (a : MemoryArena) (ptr : MPtr) (size : Nat) (b : MemBlock),
      WF a → findBlock a ptr = some b → b.size < size →
      (memRead a ptr b.size).length = b.size →
      (memory_realloc a ptr size).1 = some (memory_alloc a size).1 ∧
      (memory_realloc a ptr size).2 =
        memWrite (memory_alloc a size).2 (memory_alloc a size).1
          (memRead a ptr b.size) ∧
      memRead (memory_realloc a ptr size).2 (memory_alloc a size).1 b.size =
        memRead a ptr b.size) := by
  constructor
  · intro a ptr size b hfb hsz
    unfold memory_realloc
    rw [hfb]
    simp [hsz]
  · intro a ptr size b hwf hfb hsz hlen
    have hnsz : ¬ size ≤ b.size := by omega
    have hun : memory_realloc a ptr size =
        (some (memory_alloc a size).1,
         memWrite (memory_alloc a size).2 (memory_alloc a size).1
           (memRead a ptr b.size)) := by
      unfold memory_realloc
      rw [hfb]
      simp [hnsz]
    obtain ⟨hwf', hbc', pg, hfind, hpgd, hpgc⟩ := memory_alloc_spec a size hwf
    have hrange : (memory_alloc a size).1.off + (memRead a ptr b.size).length ≤
        pg.data.length := by
      rw [hpgd, hlen]
      omega
    refine ⟨by rw [hun], by rw [hun], ?_⟩
    rw [hun]
    have hrt := memRead_memWrite (memory_alloc a size).2 (memory_alloc a size).1
      (memRead a ptr b.size) pg hfind hrange
    rw [hlen] at hrt
    exact hrt

/-- Witness for C6's amended theorem: on a fresh 10-byte arena with one
3-byte allocation, shrinking realloc keeps the pointer; growing realloc
to 5 bytes moves to offset 3 and copies the 3 recorded bytes. -/
theorem realloc_in_place_iff_not_growing_witness :
    (findBlock (memory_alloc (memory_arena 10) 3).2 ⟨0, 0⟩ =
        some ⟨⟨0, 0⟩, 3⟩ ∧ (2 ≤ 3) ∧ WF (memory_alloc (memory_arena 10) 3).2 ∧
      (3 < 5) ∧
      (memRead (memory_alloc (memory_arena 10) 3).2 ⟨0, 0⟩ 3).length = 3) ∧
    memory_realloc (memory_alloc (memory_arena 10) 3).2 ⟨0, 0⟩ 2 =
      (some ⟨0, 0⟩, (memory_alloc (memory_arena 10) 3).2) ∧
    memRead (memory_realloc (memory_alloc (memory_arena 10) 3).2 ⟨0, 0⟩ 5).2
        (memory_alloc (memory_alloc (memory_arena 10) 3).2 5).1 3 =
      memRead (memory_alloc (memory_arena 10) 3).2 ⟨0, 0⟩ 3 :=
  ⟨⟨by decide, by decide, by unfold WF; decide, by decide, by decide⟩,
   realloc_in_place_iff_not_growing.1 (memory_alloc (memory_arena 10) 3).2
     ⟨0, 0⟩ 2 ⟨⟨0, 0⟩, 3⟩ (by decide) (by decide),
   (realloc_in_place_iff_not_growing.2 (memory_alloc (memory_arena 10) 3).2
     ⟨0, 0⟩ 5 ⟨⟨0, 0⟩, 3⟩ (by unfold WF; decide) (by decide) (by decide)
     (by decide)).2.2⟩

/-! ## Claim C8: block-count bookkeeping -/

/-- One allocator operation of a trace. -/
inductive MemOp
  | alloc (size : Nat)
  | reallocOp (ptr : MPtr) (size : Nat)
deriving DecidableEq, Repr

/-- Apply one operation to the arena. -/
def applyOp (a : MemoryArena) : MemOp → MemoryArena
  | MemOp.alloc s => (memory_alloc a s).2
  | MemOp.reallocOp p s => (memory_realloc a p s).2

/-- Run a trace of operations. -/
def runOps (a : MemoryArena) : List MemOp → MemoryArena
  | [] => a
  | op :: rest => runOps (applyOp a op) rest

/-- Modelled from the claim's words: the number of allocations a trace
performs, where a plain `alloc` and a growing `realloc` count one each
and an in-place (same or smaller size) or failed `realloc` counts
none. -/
def specOpCount (a : MemoryArena) : List MemOp → Nat
  | [] => 0
  | op :: rest =>
    (match op with
     | MemOp.alloc _ => 1
     | MemOp.reallocOp p s =>
       match findBlock a p with
       | none => 0
       | some b => if s ≤ b.size then 0 else 1) + specOpCount (applyOp a op) rest

/-- Whether the allocation performed by an operation (if any) is served
by the head page: the returned pointer's page id equals the head id. -/
def opHeadServed (a : MemoryArena) : MemOp → Bool
  | MemOp.alloc s => (memory_alloc a s).1.page == headId a
  | MemOp.reallocOp p s =>
    match findBlock a p with
    | none => false
    | some b =>
      if s ≤ b.size then false
      else (memory_alloc a s).1.page == headId a

/-- The number of head-page-served allocations in a trace. -/
def countHeadServed (a : MemoryArena) : List MemOp → Nat
  | [] => 0
  | op :: rest =>
    (if opHeadServed a op then 1 else 0) + countHeadServed (applyOp a op) rest

theorem applyOp_spec (a : MemoryArena) (op : MemOp) (h : WF a) :
    WF (applyOp a op) ∧
    memory_block_count (applyOp a op) =
      memory_block_count a + (if opHeadServed a op then 1 else 0) := by
  cases op with
  | alloc s =>
    obtain ⟨hwf, hbc, _⟩ := memory_alloc_spec a s h
    refine ⟨hwf, ?_⟩
    show memory_block_count (memory_alloc a s).2 = _
    rw [hbc]
    unfold opHeadServed
    by_cases hserved : (memory_alloc a s).1.page = headId a
    · simp [hserved]
    · simp [hserved]
  | reallocOp p s =>
    obtain ⟨hwf, hbc⟩ := memory_realloc_spec a p s h
    refine ⟨hwf, ?_⟩
    show memory_block_count (memory_realloc a p s).2 = _
    rw [hbc]
    unfold opHeadServed
    cases hfb : findBlock a p with
    | none => simp [hfb]
    | some b =>
      by_cases hsz : s ≤ b.size
      · simp [hfb, hsz]
      · by_cases hserved : (memory_alloc a s).1.page = headId a
        · simp [hfb, hsz, hserved]
        · simp [hfb, hsz, hserved]

/-- C8 counterexample: allocating 4 bytes into a fresh arena of
capacity 4 is served by a freshly appended page (the code tests
`count + size >= capacity`), so its block descriptor is recorded on
that page, and `memory_block_count` — which walks only the head page's
list — reports 0 although one allocation was performed. -/
theorem block_count_spills_cex :
    memory_block_count (runOps (memory_arena 4) [MemOp.alloc 4]) = 0 ∧
    specOpCount (memory_arena 4) [MemOp.alloc 4] = 1 := by decide

/-- C8 amended: after any trace of `alloc` and `realloc` operations on
a well-formed arena, the recorded block count (the head page's
descriptor list, which is all `memory_block_count` walks) equals its
initial value plus the number of allocations that were served by the
head page, where a growing `realloc` counts as one allocation and an
in-place or failed `realloc` as none.  Allocations served by overflow
pages are recorded on those pages and are invisible to
`memory_block_count`. -/
theorem block_count_head_served (ops : List MemOp) :
    ∀ a : MemoryArena, WF a →
      memory_block_count (runOps a ops) =
        memory_block_count a + countHeadServed a ops := by
  induction ops with
  | nil =>
    intro a _
    simp [runOps, countHeadServed]
  | cons op rest ih =>
    intro a h
    obtain ⟨hwf, hbc⟩ := applyOp_spec a op h
    show memory_block_count (runOps (applyOp a op) rest) = _
    rw [ih (applyOp a op) hwf, hbc]
    show _ = memory_block_count a +
      ((if opHeadServed a op then 1 else 0) + countHeadServed (applyOp a op) rest)
    omega

/-- Witness for C8's amended theorem on a concrete trace: a head-page
allocation, a growing realloc (head-served), and a spilling allocation. -/
theorem block_count_head_served_witness :
    WF (memory_arena 10) ∧
    memory_block_count (runOps (memory_arena 10)
        [MemOp.alloc 3, MemOp.reallocOp ⟨0, 0⟩ 5, MemOp.alloc 50]) =
      memory_block_count (memory_arena 10) +
        countHeadServed (memory_arena 10)
          [MemOp.alloc 3, MemOp.reallocOp ⟨0, 0⟩ 5, MemOp.alloc 50] :=
  ⟨by unfold WF; decide,
   block_count_head_served [MemOp.alloc 3, MemOp.reallocOp ⟨0, 0⟩ 5,
     MemOp.alloc 50] (memory_arena 10) (by unfold WF; decide)⟩
